import Mathlib

/-!
Verification of the DataSync repository's synchronization engine(s).

The repository contains several near-duplicate Python implementations of a
PostgreSQL ↔ MongoDB synchronization engine.  This file gives a shallow
embedding of the parts relevant to the frozen claims:

* `BaselineEngine`  — src/baseline-workspace/datasync/sync_engine.py
* `BaselineSync`    — src/baseline-workspace/datasync/sync.py
* `NestedSync`      — src/baseline-workspace/datasync/datasync/sync.py
* `SeqEngine`       — src/sequential-1770261425547/baseline-workspace/datasync/datasync/sync_engine.py
* `Db`              — src/sequential-1770261425547/baseline-workspace/datasync/db.py

Python dictionaries are embedded as association lists with first-occurrence
lookup, in-place update and filtering erasure, matching CPython dict
semantics (unique keys, insertion order, in-place value replacement).
Python `datetime` values are embedded as integers (a total order is all the
code uses); `datetime.isoformat` is embedded as the injective rendering
`toString` and `datetime.fromisoformat` as its partial inverse
`String.toInt?`.
-/

namespace DataSyncSpec

/-- Tagged union of the dynamic values occurring in rows/documents:
null, bool, int, string, float (binary64, carried as its numeric payload),
fixed-precision decimal, binary, datetime (as an integer time value), and
MongoDB ObjectId. -/
inductive Value where
  | vNull : Value
  | vBool (b : Bool) : Value
  | vInt (n : Int) : Value
  | vStr (s : String) : Value
  | vFloat (q : Int) : Value
  | vDecimal (q : Int) : Value
  | vBytes (bs : List Nat) : Value
  | vDatetime (t : Int) : Value
  | vObjectId (s : String) : Value
deriving DecidableEq

/-- A row / document: ordered field-name-to-value mapping (Python dict). -/
abbrev Record := List (String × Value)

/-- First-occurrence lookup, `d.get(k)` / `d[k]` on a Python dict. -/
def aget {κ : Type} {α : Type} [DecidableEq κ] (d : List (κ × α)) (k : κ) : Option α :=
  match d with
  | [] => none
  | (k', v) :: rest => if k' = k then some v else aget rest k

/-- `d[k] = v` on a Python dict: replace the value in place if the key is
present, otherwise append the new pair at the end. -/
def aset {κ : Type} {α : Type} [DecidableEq κ] (d : List (κ × α)) (k : κ) (v : α) : List (κ × α) :=
  match d with
  | [] => [(k, v)]
  | (k', v') :: rest => if k' = k then (k, v) :: rest else (k', v') :: aset rest k v

/-- `d.pop(k, None)` / `del d[k]` on a Python dict: drop the key's entry. -/
def aerase {κ : Type} {α : Type} [DecidableEq κ] (d : List (κ × α)) (k : κ) : List (κ × α) :=
  match d with
  | [] => []
  | (k', v) :: rest => if k' = k then aerase rest k else (k', v) :: aerase rest k

/-- Python truthiness of an embedded value (`bool(v)`). -/
def truthy : Value → Bool
  | Value.vNull => false
  | Value.vBool b => b
  | Value.vInt n => n ≠ 0
  | Value.vStr s => s ≠ ""
  | Value.vFloat q => q ≠ 0
  | Value.vDecimal q => q ≠ 0
  | Value.vBytes bs => ¬ bs.isEmpty
  | Value.vDatetime _ => true
  | Value.vObjectId _ => true

/-- `datetime.isoformat`, embedded as the injective rendering of the
integer time value. -/
def datetimeIso (t : Int) : String := toString t

/-- `datetime.fromisoformat`, embedded as the partial inverse of
`datetimeIso`; `none` models a raised `ValueError`. -/
def parseIso (s : String) : Option Int := s.toInt?

/-- Python `key.startswith('_')`: the first character is an underscore. -/
def startsWithUnderscore (s : String) : Bool :=
  match s.data with
  | [] => false
  | c :: _ => c = '_'

end DataSyncSpec

namespace DataSyncSpec.BaselineSync

/-! src/baseline-workspace/datasync/sync.py -/

/-- `ConflictResolver.STRATEGIES`. -/
def STRATEGIES : List String :=
  ["latest_wins", "postgres_priority", "mongo_priority", "source_wins"]

/-- `ConflictResolver.__init__`: an unrecognized strategy name is replaced
by `latest_wins` (with a logged warning); the constructor never raises. -/
def resolverInit (strategy : String) : String :=
  if STRATEGIES.contains strategy then strategy else "latest_wins"

/-- The candidate value of one field inside `ConflictResolver._get_timestamp`:
a datetime value is returned directly; a string is parsed with
`fromisoformat` (parse failure falls through to the next field); any other
type falls through. -/
def tsOfVal : Value → Option Int
  | Value.vDatetime t => some t
  | Value.vStr s => parseIso s
  | _ => none

/-- The field names probed by `ConflictResolver._get_timestamp`, in order. -/
def timestampFields : List String :=
  ["updated_at", "updatedAt", "modified_at", "modifiedAt", "_updated"]

/-- Loop of `ConflictResolver._get_timestamp` over the candidate fields. -/
def getTimestampAux (fields : List String) (doc : Record) : Option Int :=
  match fields with
  | [] => none
  | f :: rest =>
    match aget doc f with
    | some v =>
      match tsOfVal v with
      | some t => some t
      | none => getTimestampAux rest doc
    | none => getTimestampAux rest doc

/-- `ConflictResolver._get_timestamp`. -/
def getTimestamp (doc : Record) : Option Int :=
  getTimestampAux timestampFields doc

/-- `ConflictResolver.resolve`: returns the document to write
(`some sourceDoc`) or `none` to skip the write. -/
def resolve (strategy : String) (sourceDoc : Record) (targetDoc : Option Record)
    (sourceType : String) : Option Record :=
  match targetDoc with
  | none => some sourceDoc
  | some tgt =>
    if strategy = "source_wins" then some sourceDoc
    else if strategy = "postgres_priority" then
      if sourceType = "postgres" then some sourceDoc else none
    else if strategy = "mongo_priority" then
      if sourceType = "mongo" then some sourceDoc else none
    else if strategy = "latest_wins" then
      match getTimestamp sourceDoc, getTimestamp tgt with
      | none, none => some sourceDoc
      | none, some _ => none
      | some _, none => some sourceDoc
      | some st, some tt => if tt ≤ st then some sourceDoc else none
    else some sourceDoc

end DataSyncSpec.BaselineSync

namespace DataSyncSpec

/-- Python `==` on two dicts: order-independent mapping equality (same key
set, same value under every key). -/
def aeq {κ α : Type} [DecidableEq κ] [DecidableEq α] (d1 d2 : List (κ × α)) : Bool :=
  (d1.map Prod.fst ++ d2.map Prod.fst).all (fun k => decide (aget d1 k = aget d2 k))

end DataSyncSpec

namespace DataSyncSpec.BaselineEngine

/-! src/baseline-workspace/datasync/sync_engine.py -/

/-- `SyncEngine.SYNC_METADATA_FIELD`. -/
def SYNC_METADATA_FIELD : String := "_sync_updated_at"

/-- The counters of sync_engine.py's `SyncStats` (here `errors` is a plain
counter, not a list). -/
structure EngineStats where
  pg_to_mongo : Nat := 0
  mongo_to_pg : Nat := 0
  conflicts : Nat := 0
  errors : Nat := 0
deriving DecidableEq

/-- `SyncEngine._normalize_doc`: drop a MongoDB ObjectId stored under `_id`,
render any other ObjectId and every datetime as a string, keep the rest. -/
def normalizeDoc (doc : Record) : Record :=
  doc.foldl
    (fun res kv =>
      match kv with
      | (k, Value.vObjectId s) =>
        if k = "_id" then res else aset res k (Value.vStr s)
      | (k, Value.vDatetime t) => aset res k (Value.vStr (datetimeIso t))
      | (k, v) => aset res k v)
    []

/-- The first component of `SyncEngine._resolve_conflict`'s return value. -/
inductive Winner where
  | pg : Winner
  | mongo : Winner
  | skip : Winner
deriving DecidableEq

/-- Python `a or b` on two optional field values: a falsy (or absent) left
operand falls through to the right operand. -/
def pyOr (a b : Option Value) : Option Value :=
  match a with
  | some v => if truthy v then some v else b
  | none => b

/-- `row.get(SYNC_METADATA_FIELD) or row.get('updated_at')` inside
`SyncEngine._resolve_conflict`. -/
def engUpdated (r : Record) : Option Value :=
  pyOr (aget r SYNC_METADATA_FIELD) (aget r "updated_at")

/-- Truthiness of an optional value (`None` is falsy). -/
def optTruthy : Option Value → Bool
  | some v => truthy v
  | none => false

/-- `x if isinstance(x, datetime) else datetime.fromisoformat(str(x))`:
the time value carried by a timestamp field, or `none` when the conversion
raises `ValueError` (a non-datetime, non-parsable value). -/
def valTime : Value → Option Int
  | Value.vDatetime t => some t
  | Value.vStr s => parseIso s
  | _ => none

/-- `SyncEngine._resolve_conflict` (lines 98-143).  `none` models the
`ValueError` raised by the timestamp conversion in the `latest_wins`
branch; an unrecognized strategy (`manual` included) yields
`(skip, {})`. -/
def resolveConflict (strategy : String) (pgRow mongoDoc : Record) :
    Option (Winner × Record) :=
  let pu := engUpdated pgRow
  let mu := engUpdated mongoDoc
  if strategy = "source_wins" then some (Winner.pg, pgRow)
  else if strategy = "target_wins" then some (Winner.mongo, mongoDoc)
  else if strategy = "latest_wins" then
    if optTruthy pu && optTruthy mu then
      match pu.bind valTime, mu.bind valTime with
      | some pgTime, some mongoTime =>
        if mongoTime ≤ pgTime then some (Winner.pg, pgRow)
        else some (Winner.mongo, mongoDoc)
      | _, _ => none
    else if optTruthy pu then some (Winner.pg, pgRow)
    else if optTruthy mu then some (Winner.mongo, mongoDoc)
    else some (Winner.pg, pgRow)
  else some (Winner.skip, [])

/-- A store snapshot indexed by primary-key value, as built at the top of
`SyncEngine.sync_bidirectional` (`{row[pk]: row …}` / `{doc[pk]: doc …}`). -/
abbrev Store := List (Value × Record)

/-- Modelled from the spec: `MongoConnection.upsert` — the baseline
workspace's db.py is not under src/ — per §4.1 an insert-or-replace keyed
on the record's `key_field` value (a record lacking the key leaves the
store unchanged). -/
def mongoUpsert (store : Store) (pk : String) (doc : Record) : Store :=
  match aget doc pk with
  | some keyVal => aset store keyVal doc
  | none => store

/-- `SyncEngine._upsert_to_pg` (lines 305-336): normalize the document,
keep only the table's known columns, stamp the sync-metadata timestamp,
and SQL-upsert keyed on the primary-key column.  `none` models the SQL
error raised when the filtered record carries no primary-key value. -/
def upsertToPg (pgColumns : List String) (pk : String) (store : Store)
    (doc : Record) (now : Int) : Option Store :=
  let normalized := normalizeDoc doc
  let filtered := normalized.filter (fun p => pgColumns.contains p.1)
  let filtered := aset filtered SYNC_METADATA_FIELD (Value.vDatetime now)
  match aget filtered pk with
  | some keyVal => some (aset store keyVal filtered)
  | none => none

/-- The whole mutable state touched by one bidirectional per-key step. -/
structure BidirState where
  pgRows : Store
  mongoDocs : Store
  stats : EngineStats
deriving DecidableEq

/-- One iteration of the per-key loop of `SyncEngine.sync_bidirectional`
(lines 259-303): process one key from the union of the two stores' key
sets.  Dict comparison (`pg_compare != mongo_compare`) is the
order-independent `aeq`; a raised exception (failed PostgreSQL upsert or a
timestamp conversion error) is caught by the per-key handler and counted
in `errors`. -/
def bidirStepKey (strategy : String) (pgColumns : List String) (pk : String)
    (st : BidirState) (key : Value) (now : Int) : BidirState :=
  match aget st.pgRows key, aget st.mongoDocs key with
  | some pgRow, none =>
    let doc := aset (normalizeDoc pgRow) SYNC_METADATA_FIELD (Value.vDatetime now)
    { st with mongoDocs := mongoUpsert st.mongoDocs pk doc,
              stats := { st.stats with pg_to_mongo := st.stats.pg_to_mongo + 1 } }
  | none, some mongoDoc =>
    match upsertToPg pgColumns pk st.pgRows mongoDoc now with
    | some pgRows2 =>
      { st with pgRows := pgRows2,
                stats := { st.stats with mongo_to_pg := st.stats.mongo_to_pg + 1 } }
    | none => { st with stats := { st.stats with errors := st.stats.errors + 1 } }
  | some pgRow, some mongoDoc =>
    let pgCompare := aerase (normalizeDoc pgRow) SYNC_METADATA_FIELD
    let mongoCompare := aerase (normalizeDoc mongoDoc) SYNC_METADATA_FIELD
    if aeq pgCompare mongoCompare then st
    else
      let stats1 := { st.stats with conflicts := st.stats.conflicts + 1 }
      match resolveConflict strategy pgRow mongoDoc with
      | some (Winner.pg, resolved) =>
        let doc := aset (normalizeDoc resolved) SYNC_METADATA_FIELD (Value.vDatetime now)
        { st with mongoDocs := mongoUpsert st.mongoDocs pk doc,
                  stats := { stats1 with pg_to_mongo := stats1.pg_to_mongo + 1 } }
      | some (Winner.mongo, resolved) =>
        match upsertToPg pgColumns pk st.pgRows resolved now with
        | some pgRows2 =>
          { st with pgRows := pgRows2,
                    stats := { stats1 with mongo_to_pg := stats1.mongo_to_pg + 1 } }
        | none => { st with stats := { stats1 with errors := stats1.errors + 1 } }
      | some (Winner.skip, _) => { st with stats := stats1 }
      | none => { st with stats := { stats1 with errors := stats1.errors + 1 } }
  | none, none => st

/-- `TableMapping` of sync_engine.py (the transform hooks are omitted:
`SyncEngine.__init__` always leaves them `None`). -/
structure TableMapping where
  postgres_table : String
  mongo_collection : String
  primary_key : String
deriving DecidableEq

/-- The mapping loop of `SyncEngine.sync_once` (lines 345-358) from a given
running statistics value.  The per-mapping body — the direction dispatch to
`sync_pg_to_mongo` / `sync_mongo_to_pg` / `sync_bidirectional`, whose
outcome depends on the stores — is abstracted as the oracle `run`:
`ok f` means the body ran to completion mutating the cycle statistics by
`f`; `error e` means an unhandled exception escaped the body, which the
loop catches, counting one error, before moving to the next mapping. -/
def syncOnceFrom (run : TableMapping → Except String (EngineStats → EngineStats))
    (mappings : List TableMapping) (stats : EngineStats) : EngineStats :=
  mappings.foldl
    (fun s m =>
      match run m with
      | Except.ok f => f s
      | Except.error _ => { s with errors := s.errors + 1 })
    stats

/-- `SyncEngine.sync_once`: run every configured mapping, starting from
fresh statistics. -/
def syncOnce (run : TableMapping → Except String (EngineStats → EngineStats))
    (mappings : List TableMapping) : EngineStats :=
  syncOnceFrom run mappings {}

end DataSyncSpec.BaselineEngine

namespace DataSyncSpec.NestedSync

/-! src/baseline-workspace/datasync/datasync/sync.py -/

/-- The field loop of `DataSync._convert_pg_to_mongo` (lines 156-168):
copy every field verbatim (the datetime / None / other branches are all
the identity), additionally storing the value of the `id` field under the
reserved side-channel field `_pg_id`. -/
def pgToMongoFold (l : Record) (doc : Record) : Record :=
  match l with
  | [] => doc
  | kv :: rest =>
    pgToMongoFold rest
      (aset (if kv.1 = "id" then aset doc "_pg_id" kv.2 else doc) kv.1 kv.2)

/-- `DataSync._convert_pg_to_mongo` (lines 145-171): run the field loop
and stamp `_synced_at`. -/
def convertPgToMongo (record : Record) (now : Int) : Record :=
  aset (pgToMongoFold record []) "_synced_at" (Value.vDatetime now)

/-- The field loop of `DataSync._convert_mongo_to_pg` (lines 258-266):
drop every field whose name starts with `_`, except that `_pg_id`'s value
becomes the `id` field. -/
def mongoToPgFold (l : Record) (rec : Record) : Record :=
  match l with
  | [] => rec
  | kv :: rest =>
    if startsWithUnderscore kv.1 then
      if kv.1 = "_pg_id" then mongoToPgFold rest (aset rec "id" kv.2)
      else mongoToPgFold rest rec
    else mongoToPgFold rest (aset rec kv.1 kv.2)

/-- `DataSync._convert_mongo_to_pg` (lines 247-268): run the field loop;
`return record if record else None`. -/
def convertMongoToPg (document : Record) : Option Record :=
  let record := mongoToPgFold document []
  if record.isEmpty then none else some record

/-- The per-mapping statistics dict built by `DataSync.sync`. -/
structure NStats where
  tables : List (String × Nat)
  total_synced : Nat
deriving DecidableEq

/-- A mapping entry of the nested implementation's configuration. -/
structure NMapping where
  postgres_table : String
  mongo_collection : String
deriving DecidableEq

/-- The mapping loop of `DataSync.sync` (lines 289-319).  The directional
work for one mapping (I/O) is abstracted as the oracle `run`, yielding the
mapping's synced count or its unhandled exception.  On an exception the
source increments a local error counter, logs, and then RE-RAISES
(`raise`, line 316): the loop is abandoned, later mappings are never
processed, and the partially built statistics are lost with it. -/
def syncGo (run : NMapping → Except String Nat) (mappings : List NMapping)
    (acc : NStats) : Except String NStats :=
  match mappings with
  | [] => Except.ok acc
  | m :: rest =>
    match run m with
    | Except.ok synced =>
      syncGo run rest
        { tables := acc.tables ++ [(m.postgres_table, synced)],
          total_synced := acc.total_synced + synced }
    | Except.error e => Except.error e

/-- `DataSync.sync` restricted to its mapping loop. -/
def sync (run : NMapping → Except String Nat) (mappings : List NMapping) :
    Except String NStats :=
  syncGo run mappings { tables := [], total_synced := 0 }

end DataSyncSpec.NestedSync

namespace DataSyncSpec.SeqEngine

/-! src/sequential-1770261425547/baseline-workspace/datasync/datasync/sync_engine.py -/

/-- `SyncEngine._convert_for_mongo` (lines 168-180): move the primary-key
field into the native `_id` field (when the pk is not already `_id` and is
present), keep everything else (the datetime branch is the identity), and
stamp the origin marker `_sync_source = 'postgres'` and `_sync_at`. -/
def convertForMongo (record : Record) (pkCol : String) (now : Int) : Record :=
  aset
    (aset
      (if pkCol ≠ "_id" then
        match aget record pkCol with
        | some v => aset (aerase record pkCol) "_id" v
        | none => record
      else record)
      "_sync_source" (Value.vStr "postgres"))
    "_sync_at" (Value.vDatetime now)

/-- `SyncEngine._convert_for_postgres` (lines 182-191): move `_id` back to
the primary-key field and strip the `_sync_source` / `_sync_at` markers. -/
def convertForPostgres (doc : Record) (pkCol : String) : Record :=
  aerase
    (aerase
      (match aget doc "_id" with
       | some v => aset (aerase doc "_id") pkCol v
       | none => doc)
      "_sync_source")
    "_sync_at"

/-- `SyncResult` of the sequential engine. -/
structure SyncResult where
  records_synced : Nat := 0
  records_skipped : Nat := 0
  conflicts_resolved : Nat := 0
  errors : List String := []
deriving DecidableEq

/-- Per-document body of `SyncEngine._sync_mongo_to_postgres`
(lines 300-310): a document whose origin marker `_sync_source` equals
`'postgres'` — the writing engine's own identity — is counted as skipped
and nothing else happens to it; otherwise it is converted and upserted
(the success of the SQL upsert is abstracted as the oracle `upsertOk`).
The accumulator carries the list of records actually written to
PostgreSQL, in order, alongside the running result. -/
def processMongoDoc (upsertOk : Record → Bool) (pkCol : String)
    (acc : List Record × SyncResult) (doc : Record) :
    List Record × SyncResult :=
  if aget doc "_sync_source" = some (Value.vStr "postgres") then
    (acc.1, { acc.2 with records_skipped := acc.2.records_skipped + 1 })
  else
    let record := convertForPostgres doc pkCol
    if upsertOk record then
      (acc.1 ++ [record],
       { acc.2 with records_synced := acc.2.records_synced + 1 })
    else
      (acc.1,
       { acc.2 with errors := acc.2.errors ++ ["Failed to sync document to PostgreSQL"] })

/-- `SyncEngine._sync_mongo_to_postgres` (lines 292-313) over the full
document sequence: the batch loop pages with `skip += len(docs)` through
the whole collection, so the documents are processed exactly in collection
order. -/
def syncMongoToPostgres (upsertOk : Record → Bool) (pkCol : String)
    (docs : List Record) : List Record × SyncResult :=
  docs.foldl (processMongoDoc upsertOk pkCol) ([], {})

/-- The per-table boundary of `SyncEngine.sync_table` (lines 253-272): the
directional work is abstracted as the oracle `run`, returning the result
built so far paired with `some e` when an unhandled exception `e` escaped;
the handler appends the formatted message to that table's `errors` and
returns normally. -/
def syncTable (run : String → SyncResult × Option String) (table : String) :
    SyncResult :=
  match run table with
  | (r, none) => r
  | (r, some e) =>
    { r with errors := r.errors ++ ["Error syncing " ++ table ++ ": " ++ e] }

/-- `SyncEngine.sync_all` (lines 315-330): every configured table is
processed through `sync_table`, in order; no table's failure prevents the
others from running. -/
def syncAll (run : String → SyncResult × Option String)
    (tables : List String) : List (String × SyncResult) :=
  tables.map (fun t => (t, syncTable run t))

end DataSyncSpec.SeqEngine

namespace DataSyncSpec.Db

/-! src/sequential-1770261425547/baseline-workspace/datasync/db.py -/

/-- `PostgresConnection.fetch_batch` (lines 65-77):
`SELECT * FROM t ORDER BY pk LIMIT batch_size OFFSET offset`, over a store
held in primary-key order. -/
def fetchBatch {α : Type} (store : List α) (batchSize : Nat) (offset : Nat) :
    List α :=
  (store.drop offset).take batchSize

end DataSyncSpec.Db

namespace DataSyncSpec.Paging

/-- The page-fetch loop of `DataSync.sync_postgres_to_mongo` (sync.py lines
224-249): starting from `offset`, while `offset < total_rows` fetch
`fetch_batch(batch_size, offset)`, stop on an empty batch, else record the
page and advance `offset` by `batch_size`.  The `fuel` argument bounds the
iteration count structurally; `store.length` iterations always suffice
(each recursive call happens only when the batch — hence the batch size —
is nonempty, so `offset` grows by at least 1 per iteration). -/
def collectPagesAux {α : Type} (store : List α) (batchSize : Nat) :
    Nat → Nat → List (List α)
  | 0, _ => []
  | fuel + 1, offset =>
    if offset < store.length then
      let batch := Db.fetchBatch store batchSize offset
      if batch.isEmpty then []
      else batch :: collectPagesAux store batchSize fuel (offset + batchSize)
    else []

/-- The pages fetched by the batch loop, starting at `offset`. -/
def collectPages {α : Type} (store : List α) (batchSize : Nat)
    (offset : Nat) : List (List α) :=
  collectPagesAux store batchSize store.length offset

/-- The expected page-length pattern of the batch loop: starting from `n`
remaining records, pages of `min batchSize n` records until none remain
(`fuel` bounds the iterations, as in `collectPagesAux`). -/
def chunkLengthsAux (batchSize : Nat) : Nat → Nat → List Nat
  | 0, _ => []
  | fuel + 1, n =>
    if 0 < n then min batchSize n :: chunkLengthsAux batchSize fuel (n - batchSize)
    else []

end DataSyncSpec.Paging

namespace DataSyncSpec.BaselineSync

/-- `SyncStats` of sync.py (the counters and error list the claims touch;
the table/direction labels and wall-clock timestamps are omitted). -/
structure Stats where
  rows_processed : Nat := 0
  rows_inserted : Nat := 0
  rows_updated : Nat := 0
  rows_skipped : Nat := 0
  errors : List String := []
deriving DecidableEq

/-- Modelled from the spec: `MongoConnection.get_document` — the baseline
workspace's db.py is not under src/; per §4.1 (`get_one`) and the
sequential workspace's db.py (`find_one({primary_key: key_value})`) it is
a point lookup by primary-key value. -/
def getDocument (store : List (Value × Record)) (keyVal : Value) :
    Option Record :=
  aget store keyVal

/-- Modelled from the spec: `MongoConnection.upsert_batch` — the baseline
workspace's db.py is not under src/; per §4.1 (`upsert_batch`) and the
sequential workspace's db.py (a bulk of
`UpdateOne({pk: doc[pk]}, {$set: doc}, upsert=True)`) each document is
independently inserted or `$set`-merged onto the existing document with
the same primary-key value. -/
def upsertBatch (store : List (Value × Record)) (documents : List Record)
    (pk : String) : List (Value × Record) :=
  documents.foldl
    (fun st doc =>
      match aget doc pk with
      | some keyVal =>
        match aget st keyVal with
        | some old => aset st keyVal (doc.foldl (fun d kv => aset d kv.1 kv.2) old)
        | none => st ++ [(keyVal, doc)]
      | none => st)
    store

/-- `DataSync._convert_pg_to_mongo` (sync.py lines 147-159): a Decimal
becomes a float (binary64; the numeric payload is carried through),
bytes-like values become bytes, everything else — None included — is kept
unchanged. -/
def convertPgToMongo (row : Record) : Record :=
  row.foldl
    (fun converted kv =>
      match kv.2 with
      | Value.vDecimal q => aset converted kv.1 (Value.vFloat q)
      | Value.vBytes bs => aset converted kv.1 (Value.vBytes bs)
      | v => aset converted kv.1 v)
    []

/-- The per-row loop of one batch in `DataSync.sync_postgres_to_mongo`
(lines 231-243), against the MongoDB state as of the start of the batch.
Each row is converted, the existing target document is looked up by the
converted row's primary-key value, and the conflict resolver decides: a
non-None resolution is appended to `documents_to_write` and counted as
inserted (no existing document) or updated (existing document); a None
resolution is counted as skipped.  `some "KeyError…"` in the second
component models the `KeyError` raised by `doc[primary_key]` when the
converted row lacks the primary-key field: the loop stops there, keeping
the statistics mutated so far. -/
def rowLoop (strategy pk : String) (mongoStore : List (Value × Record))
    (rows : List Record) (acc : List Record × Stats) :
    (List Record × Stats) × Option String :=
  match rows with
  | [] => (acc, none)
  | row :: rest =>
    match aget (convertPgToMongo row) pk with
    | none => (acc, some "KeyError: missing primary key")
    | some keyVal =>
      match resolve strategy (convertPgToMongo row)
          (getDocument mongoStore keyVal) "postgres",
        getDocument mongoStore keyVal with
      | some resolved, none =>
        rowLoop strategy pk mongoStore rest
          (acc.1 ++ [resolved],
           { acc.2 with rows_inserted := acc.2.rows_inserted + 1 })
      | some resolved, some _ =>
        rowLoop strategy pk mongoStore rest
          (acc.1 ++ [resolved],
           { acc.2 with rows_updated := acc.2.rows_updated + 1 })
      | none, _ =>
        rowLoop strategy pk mongoStore rest
          (acc.1, { acc.2 with rows_skipped := acc.2.rows_skipped + 1 })

/-- The batch loop of `DataSync.sync_postgres_to_mongo` (lines 224-252)
over the already-collected pages (the per-row work never touches the
PostgreSQL store, so pre-collecting the pages is equivalent to the
interleaved fetch), threading the MongoDB store: per batch, run the row
loop against the store as of the batch start, bulk-upsert the resolved
documents, and add the batch length to `rows_processed`.  A raised
`KeyError` reaches the outer handler, which appends the message to
`errors` and ends the sync (the statistics mutated before the raise are
kept; the batch's pending writes and `rows_processed` increment are
lost). -/
def batchLoop (strategy pk : String) (pages : List (List Record))
    (mongoStore : List (Value × Record)) (stats : Stats) :
    Stats × List (Value × Record) :=
  match pages with
  | [] => (stats, mongoStore)
  | batch :: rest =>
    match rowLoop strategy pk mongoStore batch ([], stats) with
    | ((writes, stats2), none) =>
      batchLoop strategy pk rest (upsertBatch mongoStore writes pk)
        { stats2 with rows_processed := stats2.rows_processed + batch.length }
    | ((_, stats2), some e) =>
      ({ stats2 with errors := stats2.errors ++ [e] }, mongoStore)

/-- `DataSync.sync_postgres_to_mongo` (lines 211-265): page through the
table with `fetch_batch` and run the batch loop from fresh statistics.
`pgStore` is the table in primary-key order; `mongoStore` the collection
keyed by primary-key value. -/
def syncPostgresToMongo (strategy pk : String) (batchSize : Nat)
    (pgStore : List Record) (mongoStore : List (Value × Record)) :
    Stats × List (Value × Record) :=
  batchLoop strategy pk (Paging.collectPages pgStore batchSize 0) mongoStore {}

end DataSyncSpec.BaselineSync

namespace DataSyncSpec

/-- Values a relational row may carry in the C3 round-trip claim:
string / int / bool / null. -/
def isBasic : Value → Bool
  | Value.vNull => true
  | Value.vBool _ => true
  | Value.vInt _ => true
  | Value.vStr _ => true
  | _ => false

end DataSyncSpec

namespace DataSyncSpec

theorem aget_aset {κ α : Type} [DecidableEq κ] (d : List (κ × α)) (k k' : κ) (v : α) :
    aget (aset d k v) k' = if k' = k then some v else aget d k' := by
  induction d with
  | nil =>
    by_cases hk : k' = k
    · simp [aset, aget, hk]
    · simp [aset, aget, hk, Ne.symm hk]
  | cons p rest ih =>
    obtain ⟨k₀, v₀⟩ := p
    by_cases hk : k' = k
    · subst hk
      by_cases h0 : k₀ = k'
      · simp [aset, aget, h0]
      · simp [aset, aget, h0, ih]
    · by_cases h0 : k₀ = k
      · subst h0
        simp [aset, aget, hk, Ne.symm hk]
      · by_cases h1 : k₀ = k'
        · simp [aset, aget, hk, h0, h1]
        · simp [aset, aget, hk, h0, h1, ih]

theorem aget_aerase {κ α : Type} [DecidableEq κ] (d : List (κ × α)) (k k' : κ) :
    aget (aerase d k) k' = if k' = k then none else aget d k' := by
  induction d with
  | nil =>
    by_cases hk : k' = k <;> simp [aerase, aget, hk]
  | cons p rest ih =>
    obtain ⟨k₀, v₀⟩ := p
    by_cases hk : k' = k
    · subst hk
      by_cases h0 : k₀ = k'
      · simp [aerase, aget, h0, ih]
      · simp [aerase, aget, h0, ih]
    · by_cases h0 : k₀ = k
      · subst h0
        simp [aerase, aget, hk, Ne.symm hk, ih]
      · by_cases h1 : k₀ = k'
        · simp [aerase, aget, hk, h0, h1]
        · simp [aerase, aget, hk, h0, h1, ih]

end DataSyncSpec

namespace DataSyncSpec.BaselineEngine

theorem truthy_of_valTime (v : Value) (t : Int) (h : valTime v = some t) :
    truthy v = true := by
  cases v with
  | vStr s =>
    simp only [valTime, parseIso] at h
    by_cases hs : s = ""
    · subst hs
      have h0 : ("" : String).toInt? = none := by decide
      rw [h0] at h
      cases h
    · simp [truthy, hs]
  | vDatetime t0 => simp [truthy]
  | vNull => simp [valTime] at h
  | vBool b => simp [valTime] at h
  | vInt n => simp [valTime] at h
  | vFloat q => simp [valTime] at h
  | vDecimal q => simp [valTime] at h
  | vBytes bs => simp [valTime] at h
  | vObjectId s => simp [valTime] at h

end DataSyncSpec.BaselineEngine

namespace DataSyncSpec

/-- C1: under the `latest_wins` strategy, for any two records of the same
key: with both timestamps present the later timestamp wins and a tie is
won by side_a (the relational/postgres side — the pg record in
`SyncEngine._resolve_conflict`, the source record in
`ConflictResolver.resolve`, whose only strategy-consulting caller passes
the postgres side as source); with exactly one timestamp present that
record wins (in `ConflictResolver.resolve`, a source-only timestamp
returns the source and a target-only timestamp skips the write, keeping
the target); with neither present side_a wins; and both resolvers are
pure functions, so the same pair of inputs always yields the same
winner. -/
theorem c1_latest_wins_resolution :
    (∀ (pgRow mongoDoc : Record) (pv mv : Value) (tp tm : Int),
       BaselineEngine.engUpdated pgRow = some pv →
       BaselineEngine.valTime pv = some tp →
       BaselineEngine.engUpdated mongoDoc = some mv →
       BaselineEngine.valTime mv = some tm →
       BaselineEngine.resolveConflict "latest_wins" pgRow mongoDoc =
         some (if tm ≤ tp then (BaselineEngine.Winner.pg, pgRow)
               else (BaselineEngine.Winner.mongo, mongoDoc))) ∧
    (∀ (pgRow mongoDoc : Record),
       BaselineEngine.optTruthy (BaselineEngine.engUpdated pgRow) = true →
       BaselineEngine.optTruthy (BaselineEngine.engUpdated mongoDoc) = false →
       BaselineEngine.resolveConflict "latest_wins" pgRow mongoDoc =
         some (BaselineEngine.Winner.pg, pgRow)) ∧
    (∀ (pgRow mongoDoc : Record),
       BaselineEngine.optTruthy (BaselineEngine.engUpdated pgRow) = false →
       BaselineEngine.optTruthy (BaselineEngine.engUpdated mongoDoc) = true →
       BaselineEngine.resolveConflict "latest_wins" pgRow mongoDoc =
         some (BaselineEngine.Winner.mongo, mongoDoc)) ∧
    (∀ (pgRow mongoDoc : Record),
       BaselineEngine.optTruthy (BaselineEngine.engUpdated pgRow) = false →
       BaselineEngine.optTruthy (BaselineEngine.engUpdated mongoDoc) = false →
       BaselineEngine.resolveConflict "latest_wins" pgRow mongoDoc =
         some (BaselineEngine.Winner.pg, pgRow)) ∧
    (∀ (src tgt : Record) (ty : String) (ts tt : Int),
       BaselineSync.getTimestamp src = some ts →
       BaselineSync.getTimestamp tgt = some tt →
       BaselineSync.resolve "latest_wins" src (some tgt) ty =
         (if tt ≤ ts then some src else none)) ∧
    (∀ (src tgt : Record) (ty : String) (ts : Int),
       BaselineSync.getTimestamp src = some ts →
       BaselineSync.getTimestamp tgt = none →
       BaselineSync.resolve "latest_wins" src (some tgt) ty = some src) ∧
    (∀ (src tgt : Record) (ty : String) (tt : Int),
       BaselineSync.getTimestamp src = none →
       BaselineSync.getTimestamp tgt = some tt →
       BaselineSync.resolve "latest_wins" src (some tgt) ty = none) ∧
    (∀ (src tgt : Record) (ty : String),
       BaselineSync.getTimestamp src = none →
       BaselineSync.getTimestamp tgt = none →
       BaselineSync.resolve "latest_wins" src (some tgt) ty = some src) ∧
    (∀ (strategy : String) (a b : Record),
       BaselineEngine.resolveConflict strategy a b =
         BaselineEngine.resolveConflict strategy a b) := by
  refine ⟨?_, ?_, ?_, ?_, ?_, ?_, ?_, ?_, fun _ _ _ => rfl⟩
  · intro pgRow mongoDoc pv mv tp tm hp1 hp2 hm1 hm2
    have htp := BaselineEngine.truthy_of_valTime pv tp hp2
    have htm := BaselineEngine.truthy_of_valTime mv tm hm2
    by_cases hc : tm ≤ tp <;>
      simp [BaselineEngine.resolveConflict, hp1, hm1, hp2, hm2,
        BaselineEngine.optTruthy, htp, htm, hc]
  · intro pgRow mongoDoc h1 h2
    simp [BaselineEngine.resolveConflict, h1, h2]
  · intro pgRow mongoDoc h1 h2
    simp [BaselineEngine.resolveConflict, h1, h2]
  · intro pgRow mongoDoc h1 h2
    simp [BaselineEngine.resolveConflict, h1, h2]
  · intro src tgt ty ts tt h1 h2
    simp [BaselineSync.resolve, h1, h2]
  · intro src tgt ty ts h1 h2
    simp [BaselineSync.resolve, h1, h2]
  · intro src tgt ty tt h1 h2
    simp [BaselineSync.resolve, h1, h2]
  · intro src tgt ty h1 h2
    simp [BaselineSync.resolve, h1, h2]

/-- Witness for C1: a timestamp tie (both sides at time 5) is resolved in
favour of the postgres side. -/
theorem c1_witness :
    BaselineEngine.resolveConflict "latest_wins"
      [("updated_at", Value.vDatetime 5)] [("updated_at", Value.vDatetime 5)] =
      some (BaselineEngine.Winner.pg, [("updated_at", Value.vDatetime 5)]) := by
  have h := c1_latest_wins_resolution.1
    [("updated_at", Value.vDatetime 5)] [("updated_at", Value.vDatetime 5)]
    (Value.vDatetime 5) (Value.vDatetime 5) 5 5
    (by decide) (by decide) (by decide) (by decide)
  simpa using h

/-- C5: with the strategy set to `manual` or any other unrecognized name,
when both sides hold differing payloads for the same key, the resolver
returns skip and the per-key bidirectional step only increments the
conflicts counter: neither side is applied and both stores are left
unchanged. -/
theorem c5_manual_strategy_skips (strategy : String)
    (hs1 : strategy ≠ "source_wins") (hs2 : strategy ≠ "target_wins")
    (hs3 : strategy ≠ "latest_wins")
    (pgColumns : List String) (pk : String)
    (st : BaselineEngine.BidirState) (key : Value) (now : Int)
    (pgRow mongoDoc : Record)
    (hpg : aget st.pgRows key = some pgRow)
    (hm : aget st.mongoDocs key = some mongoDoc)
    (hdiff : aeq
      (aerase (BaselineEngine.normalizeDoc pgRow) BaselineEngine.SYNC_METADATA_FIELD)
      (aerase (BaselineEngine.normalizeDoc mongoDoc) BaselineEngine.SYNC_METADATA_FIELD)
      = false) :
    BaselineEngine.resolveConflict strategy pgRow mongoDoc =
      some (BaselineEngine.Winner.skip, []) ∧
    BaselineEngine.bidirStepKey strategy pgColumns pk st key now =
      { st with stats := { st.stats with conflicts := st.stats.conflicts + 1 } } := by
  constructor
  · simp [BaselineEngine.resolveConflict, hs1, hs2, hs3]
  · simp [BaselineEngine.bidirStepKey, hpg, hm, hdiff,
      BaselineEngine.resolveConflict, hs1, hs2, hs3]

/-- Witness for C5: a concrete `manual` conflict increments only the
conflicts counter and leaves both one-record stores untouched. -/
theorem c5_witness :
    BaselineEngine.bidirStepKey "manual" [] "id"
      ⟨[(Value.vInt 1, [("a", Value.vInt 1)])],
       [(Value.vInt 1, [("a", Value.vInt 2)])], {}⟩ (Value.vInt 1) 0 =
      ⟨[(Value.vInt 1, [("a", Value.vInt 1)])],
       [(Value.vInt 1, [("a", Value.vInt 2)])],
       { conflicts := 1 }⟩ := by
  have h := (c5_manual_strategy_skips "manual" (by decide) (by decide) (by decide)
    [] "id"
    ⟨[(Value.vInt 1, [("a", Value.vInt 1)])],
     [(Value.vInt 1, [("a", Value.vInt 2)])], {}⟩ (Value.vInt 1) 0
    [("a", Value.vInt 1)] [("a", Value.vInt 2)]
    (by decide) (by decide) (by decide)).2
  simpa using h

/-- C6: constructing the conflict resolver with a strategy name outside
`STRATEGIES` never raises — the constructor is total, replaces the name by
`latest_wins` (logging a warning), and every later resolution behaves
exactly as if `latest_wins` had been configured. -/
theorem c6_invalid_strategy_falls_back (strategy : String)
    (h : BaselineSync.STRATEGIES.contains strategy = false) :
    BaselineSync.resolverInit strategy = "latest_wins" ∧
    ∀ (sourceDoc : Record) (targetDoc : Option Record) (sourceType : String),
      BaselineSync.resolve (BaselineSync.resolverInit strategy)
        sourceDoc targetDoc sourceType =
      BaselineSync.resolve "latest_wins" sourceDoc targetDoc sourceType := by
  have h1 : BaselineSync.resolverInit strategy = "latest_wins" := by
    unfold BaselineSync.resolverInit
    rw [h]
    simp
  exact ⟨h1, fun sourceDoc targetDoc sourceType => by rw [h1]⟩

/-- Witness for C6: the unrecognized strategy name `manual` falls back to
`latest_wins` and resolves exactly as `latest_wins` does. -/
theorem c6_witness :
    BaselineSync.resolverInit "manual" = "latest_wins" ∧
    BaselineSync.resolve (BaselineSync.resolverInit "manual")
      [("x", Value.vInt 1)] (some [("x", Value.vInt 2)]) "postgres" =
    BaselineSync.resolve "latest_wins"
      [("x", Value.vInt 1)] (some [("x", Value.vInt 2)]) "postgres" :=
  ⟨(c6_invalid_strategy_falls_back "manual" (by decide)).1,
   (c6_invalid_strategy_falls_back "manual" (by decide)).2
     [("x", Value.vInt 1)] (some [("x", Value.vInt 2)]) "postgres"⟩

/-- C9: `ConflictResolver.resolve` with an absent (`None`) target returns
the source document for every source document, source type and strategy —
an absent target always results in a write — while the `mongo_priority`
and `postgres_priority` strategies do return `None` (skip) for a source
when a conflicting target exists. -/
theorem c9_absent_target_always_writes :
    (∀ (strategy sourceType : String) (sourceDoc : Record),
       BaselineSync.resolve strategy sourceDoc none sourceType =
         some sourceDoc) ∧
    (∃ (sourceDoc tgt : Record) (sourceType : String),
       BaselineSync.resolve "mongo_priority" sourceDoc (some tgt) sourceType =
         none) ∧
    (∃ (sourceDoc tgt : Record) (sourceType : String),
       BaselineSync.resolve "postgres_priority" sourceDoc (some tgt) sourceType =
         none) := by
  refine ⟨fun strategy sourceType sourceDoc => rfl, ?_, ?_⟩
  · exact ⟨[], [], "postgres", by decide⟩
  · exact ⟨[], [], "mongo", by decide⟩

theorem aget_eq_none_iff {κ α : Type} [DecidableEq κ] (d : List (κ × α)) (k : κ) :
    aget d k = none ↔ k ∉ d.map Prod.fst := by
  induction d with
  | nil => simp [aget]
  | cons p rest ih =>
    obtain ⟨k₀, v₀⟩ := p
    by_cases h : k₀ = k
    · subst h
      simp [aget]
    · simp [aget, h, ih, Ne.symm h]

theorem mem_of_aget {κ α : Type} [DecidableEq κ] {d : List (κ × α)} {k : κ}
    {w : α} (h : aget d k = some w) : (k, w) ∈ d := by
  induction d with
  | nil => cases h
  | cons p rest ih =>
    obtain ⟨k₀, v₀⟩ := p
    by_cases h0 : k₀ = k
    · subst h0
      rw [aget, if_pos rfl] at h
      injection h with hv
      subst hv
      exact List.mem_cons_self _ _
    · rw [aget, if_neg h0] at h
      exact List.mem_cons_of_mem _ (ih h)

theorem aget_of_mem_nodup {κ α : Type} [DecidableEq κ] :
    ∀ (d : List (κ × α)) (p : κ × α),
      (d.map Prod.fst).Nodup → p ∈ d → aget d p.1 = some p.2
  | [], p, _, hp => absurd hp (List.not_mem_nil p)
  | (k₀, v₀) :: rest, p, hnd, hp => by
    rcases List.mem_cons.mp hp with h | h
    · subst h
      simp [aget]
    · have hmem : p.1 ∈ rest.map Prod.fst := List.mem_map_of_mem Prod.fst h
      have hnd1 : (k₀ :: rest.map Prod.fst).Nodup := by
        rw [List.map_cons] at hnd
        exact hnd
      have hnd2 := List.nodup_cons.mp hnd1
      have hne : k₀ ≠ p.1 := fun he => hnd2.1 (he ▸ hmem)
      rw [aget, if_neg hne]
      exact aget_of_mem_nodup rest p hnd2.2 h

theorem mem_keys_aset {κ α : Type} [DecidableEq κ] (d : List (κ × α))
    (k k' : κ) (v : α) :
    k' ∈ (aset d k v).map Prod.fst ↔ (k' = k ∨ k' ∈ d.map Prod.fst) := by
  induction d with
  | nil => simp [aset]
  | cons p rest ih =>
    obtain ⟨k₀, v₀⟩ := p
    by_cases h0 : k₀ = k
    · subst h0
      simp [aset]
    · simp [aset, h0, ih]
      tauto

theorem nodup_keys_aset {κ α : Type} [DecidableEq κ] (d : List (κ × α))
    (k : κ) (v : α) (hnd : (d.map Prod.fst).Nodup) :
    ((aset d k v).map Prod.fst).Nodup := by
  induction d with
  | nil => simp [aset]
  | cons p rest ih =>
    obtain ⟨k₀, v₀⟩ := p
    have hnd1 : (k₀ :: rest.map Prod.fst).Nodup := by
      rw [List.map_cons] at hnd
      exact hnd
    have hnd2 := List.nodup_cons.mp hnd1
    by_cases h0 : k₀ = k
    · subst h0
      simpa [aset] using hnd
    · rw [aset, if_neg h0, List.map_cons, List.nodup_cons]
      refine ⟨?_, ih hnd2.2⟩
      intro hmem
      rcases (mem_keys_aset rest k k₀ v).mp hmem with h | h
      · exact h0 h
      · exact hnd2.1 h

theorem isEmpty_false_of_aget {d : Record} {k : String} {w : Value}
    (h : aget d k = some w) : d.isEmpty = false := by
  cases d with
  | nil => cases h
  | cons p rest => rfl

end DataSyncSpec

namespace DataSyncSpec.NestedSync

theorem pgToMongoFold_aget_of_none :
    ∀ (l doc : Record) (k : String), k ≠ "_pg_id" → aget l k = none →
      aget (pgToMongoFold l doc) k = aget doc k
  | [], _, _, _, _ => rfl
  | (k₀, v₀) :: rest, doc, k, hk, h => by
    rw [aget] at h
    by_cases h0 : k₀ = k
    · rw [if_pos h0] at h
      cases h
    · rw [if_neg h0] at h
      rw [pgToMongoFold, pgToMongoFold_aget_of_none rest _ k hk h]
      rw [aget_aset, if_neg (fun he => h0 he.symm)]
      by_cases hid : k₀ = "id"
      · rw [if_pos hid, aget_aset, if_neg hk]
      · rw [if_neg hid]

theorem pgToMongoFold_aget_of_some :
    ∀ (l doc : Record) (k : String) (w : Value), k ≠ "_pg_id" →
      (l.map Prod.fst).Nodup → aget l k = some w →
      aget (pgToMongoFold l doc) k = some w
  | [], _, _, _, _, _, h => by cases h
  | (k₀, v₀) :: rest, doc, k, w, hk, hnd, h => by
    have hnd1 : (k₀ :: rest.map Prod.fst).Nodup := by
      rw [List.map_cons] at hnd
      exact hnd
    have hnd2 := List.nodup_cons.mp hnd1
    rw [aget] at h
    by_cases h0 : k₀ = k
    · subst h0
      rw [if_pos rfl] at h
      injection h with hv
      subst hv
      have hrest : aget rest k₀ = none := (aget_eq_none_iff rest k₀).mpr hnd2.1
      rw [pgToMongoFold, pgToMongoFold_aget_of_none rest _ k₀ hk hrest]
      rw [aget_aset, if_pos rfl]
    · rw [if_neg h0] at h
      rw [pgToMongoFold]
      exact pgToMongoFold_aget_of_some rest _ k w hk hnd2.2 h

theorem pgToMongoFold_pgid_stable :
    ∀ (l doc : Record), aget l "id" = none → aget l "_pg_id" = none →
      aget (pgToMongoFold l doc) "_pg_id" = aget doc "_pg_id"
  | [], _, _, _ => rfl
  | (k₀, v₀) :: rest, doc, hid, hpg => by
    rw [aget] at hid hpg
    by_cases h1 : k₀ = "id"
    · rw [if_pos h1] at hid
      cases hid
    · rw [if_neg h1] at hid
      by_cases h2 : k₀ = "_pg_id"
      · rw [if_pos h2] at hpg
        cases hpg
      · rw [if_neg h2] at hpg
        rw [pgToMongoFold, if_neg h1,
          pgToMongoFold_pgid_stable rest _ hid hpg]
        rw [aget_aset, if_neg (fun he => h2 he.symm)]

theorem pgToMongoFold_pgid :
    ∀ (l doc : Record) (v : Value), aget l "id" = some v →
      aget l "_pg_id" = none → (l.map Prod.fst).Nodup →
      aget (pgToMongoFold l doc) "_pg_id" = some v
  | [], _, _, h, _, _ => by cases h
  | (k₀, v₀) :: rest, doc, v, hid, hpg, hnd => by
    have hnd1 : (k₀ :: rest.map Prod.fst).Nodup := by
      rw [List.map_cons] at hnd
      exact hnd
    have hnd2 := List.nodup_cons.mp hnd1
    rw [aget] at hid hpg
    by_cases h1 : k₀ = "id"
    · subst h1
      rw [if_pos rfl] at hid
      injection hid with hv
      subst hv
      have hpg2 : aget rest "_pg_id" = none := by simpa using hpg
      have hrid : aget rest "id" = none := (aget_eq_none_iff rest "id").mpr hnd2.1
      rw [pgToMongoFold, if_pos rfl,
        pgToMongoFold_pgid_stable rest _ hrid hpg2]
      show aget (aset (aset doc "_pg_id" v₀) "id" v₀) "_pg_id" = some v₀
      rw [aget_aset, if_neg (show ("_pg_id" : String) ≠ "id" by decide),
        aget_aset, if_pos rfl]
    · rw [if_neg h1] at hid
      by_cases h2 : k₀ = "_pg_id"
      · rw [if_pos h2] at hpg
        cases hpg
      · rw [if_neg h2] at hpg
        rw [pgToMongoFold, if_neg h1]
        exact pgToMongoFold_pgid rest _ v hid hpg hnd2.2

theorem mongoToPgFold_aget_id :
    ∀ (l rec : Record) (v : Value),
      (∀ p ∈ l, (p.1 = "id" ∨ p.1 = "_pg_id") → p.2 = v) →
      ((∃ p ∈ l, p.1 = "id" ∨ p.1 = "_pg_id") ∨ aget rec "id" = some v) →
      aget (mongoToPgFold l rec) "id" = some v
  | [], rec, v, _, hdisj => by
    rcases hdisj with ⟨p, hp, _⟩ | h
    · cases hp
    · exact h
  | (k₀, v₀) :: rest, rec, v, hval, hdisj => by
    have hval2 : ∀ p ∈ rest, (p.1 = "id" ∨ p.1 = "_pg_id") → p.2 = v :=
      fun p hp => hval p (List.mem_cons_of_mem _ hp)
    by_cases h1 : k₀ = "id"
    · subst h1
      have hv : v₀ = v :=
        hval ("id", v₀) (List.mem_cons_self _ _) (Or.inl rfl)
      subst hv
      have hsw : startsWithUnderscore "id" = false := by decide
      rw [mongoToPgFold]
      simp only [hsw, Bool.false_eq_true, if_false]
      exact mongoToPgFold_aget_id rest _ v₀ hval2
        (Or.inr (by rw [aget_aset, if_pos rfl]))
    · by_cases h2 : k₀ = "_pg_id"
      · subst h2
        have hv : v₀ = v :=
          hval ("_pg_id", v₀) (List.mem_cons_self _ _) (Or.inr rfl)
        subst hv
        have hsw : startsWithUnderscore "_pg_id" = true := by decide
        rw [mongoToPgFold]
        simp only [hsw, if_true]
        exact mongoToPgFold_aget_id rest _ v₀ hval2
          (Or.inr (by rw [aget_aset, if_pos rfl]))
      · have hdisj2 : ∀ rec2 : Record, aget rec2 "id" = aget rec "id" →
            (∃ p ∈ rest, p.1 = "id" ∨ p.1 = "_pg_id") ∨ aget rec2 "id" = some v := by
          intro rec2 he
          rcases hdisj with ⟨p, hp, hor⟩ | h
          · rcases List.mem_cons.mp hp with hh | hmem
            · rcases hor with h | h
              · rw [hh] at h
                exact absurd h h1
              · rw [hh] at h
                exact absurd h h2
            · exact Or.inl ⟨p, hmem, hor⟩
          · exact Or.inr (he ▸ h)
        by_cases hs : startsWithUnderscore k₀ = true
        · rw [mongoToPgFold]
          simp only [hs, if_true, h2, if_false]
          exact mongoToPgFold_aget_id rest rec v hval2 (hdisj2 rec rfl)
        · rw [mongoToPgFold]
          simp only [hs, if_false]
          exact mongoToPgFold_aget_id rest _ v hval2
            (hdisj2 _ (by rw [aget_aset, if_neg (fun he => h1 he.symm)]))

end DataSyncSpec.NestedSync

namespace DataSyncSpec.SeqEngine

theorem aget_markers (doc : Record) (now : Int) (k : String)
    (h2 : k ≠ "_sync_source") (h3 : k ≠ "_sync_at") :
    aget (aset (aset doc "_sync_source" (Value.vStr "postgres")) "_sync_at"
      (Value.vDatetime now)) k = aget doc k := by
  rw [aget_aset, if_neg h3, aget_aset, if_neg h2]

theorem aget_unmark (record : Record) (k : String)
    (h2 : k ≠ "_sync_source") (h3 : k ≠ "_sync_at") :
    aget (aerase (aerase record "_sync_source") "_sync_at") k =
      aget record k := by
  rw [aget_aerase, if_neg h3, aget_aerase, if_neg h2]

theorem roundtrip_field (record : Record) (pkCol : String) (now : Int)
    (k : String) (w : Value) (hk1 : k ≠ "_id") (hk2 : k ≠ "_sync_source")
    (hk3 : k ≠ "_sync_at") (hw : aget record k = some w) :
    aget (convertForPostgres (convertForMongo record pkCol now) pkCol) k =
      some w := by
  unfold convertForMongo convertForPostgres
  by_cases hpk : pkCol = "_id"
  · subst hpk
    rw [if_neg (show ¬ ("_id" : String) ≠ "_id" by simp)]
    have hDid := aget_markers record now "_id" (by decide) (by decide)
    cases hrec : aget record "_id" with
    | none =>
      rw [hrec] at hDid
      rw [hDid, aget_unmark _ _ hk2 hk3, aget_markers _ _ _ hk2 hk3]
      exact hw
    | some u =>
      rw [hrec] at hDid
      rw [hDid, aget_unmark _ _ hk2 hk3, aget_aset, if_neg hk1,
        aget_aerase, if_neg hk1, aget_markers _ _ _ hk2 hk3]
      exact hw
  · rw [if_pos hpk]
    cases hpkv : aget record pkCol with
    | some u =>
      have hDid : aget (aset (aset (aset (aerase record pkCol) "_id" u)
          "_sync_source" (Value.vStr "postgres")) "_sync_at"
          (Value.vDatetime now)) "_id" = some u := by
        rw [aget_markers _ _ _ (by decide) (by decide), aget_aset, if_pos rfl]
      simp only [hDid]
      rw [aget_unmark _ _ hk2 hk3]
      by_cases hkpk : k = pkCol
      · subst hkpk
        rw [hpkv] at hw
        injection hw with huw
        subst huw
        rw [aget_aset, if_pos rfl]
      · rw [aget_aset, if_neg hkpk, aget_aerase, if_neg hk1,
          aget_markers _ _ _ hk2 hk3, aget_aset, if_neg hk1,
          aget_aerase, if_neg hkpk]
        exact hw
    | none =>
      have hkpk : k ≠ pkCol := by
        intro he
        rw [he, hpkv] at hw
        cases hw
      have hDid := aget_markers record now "_id" (by decide) (by decide)
      cases hrid : aget record "_id" with
      | some u =>
        rw [hrid] at hDid
        simp only [hDid]
        rw [aget_unmark _ _ hk2 hk3, aget_aset, if_neg hkpk,
          aget_aerase, if_neg hk1, aget_markers _ _ _ hk2 hk3]
        exact hw
      | none =>
        rw [hrid] at hDid
        simp only [hDid]
        rw [aget_unmark _ _ hk2 hk3, aget_markers _ _ _ hk2 hk3]
        exact hw

end DataSyncSpec.SeqEngine

namespace DataSyncSpec.NestedSync

theorem pgToMongoFold_nodup :
    ∀ (l doc : Record), (doc.map Prod.fst).Nodup →
      ((pgToMongoFold l doc).map Prod.fst).Nodup
  | [], _, h => h
  | kv :: rest, doc, h => by
    rw [pgToMongoFold]
    refine pgToMongoFold_nodup rest _ (nodup_keys_aset _ _ _ ?_)
    by_cases hid : kv.1 = "id"
    · rw [if_pos hid]
      exact nodup_keys_aset _ _ _ h
    · rw [if_neg hid]
      exact h

end DataSyncSpec.NestedSync

namespace DataSyncSpec

/-- C3: for any relational row with string/int/bool/null field values,
converting relational→document (`_convert_for_mongo`) and back
(`_convert_for_postgres`) restores every original field of the row that is
not one of the reserved identifier/synchronization-marker fields
(`_id`, `_sync_source`, `_sync_at`). -/
theorem c3_convert_roundtrip (record : Record) (pkCol : String) (now : Int)
    (hbasic : ∀ p ∈ record, isBasic p.2 = true)
    (k : String) (w : Value) (hk1 : k ≠ "_id") (hk2 : k ≠ "_sync_source")
    (hk3 : k ≠ "_sync_at") (hw : aget record k = some w) :
    aget (SeqEngine.convertForPostgres
      (SeqEngine.convertForMongo record pkCol now) pkCol) k = some w :=
  SeqEngine.roundtrip_field record pkCol now k w hk1 hk2 hk3 hw

/-- Witness for C3: a concrete row round-trips its `name` field. -/
theorem c3_witness :
    aget (SeqEngine.convertForPostgres
      (SeqEngine.convertForMongo
        [("id", Value.vInt 1), ("name", Value.vStr "Ann"),
         ("ok", Value.vBool true), ("note", Value.vNull)] "id" 9) "id")
      "name" = some (Value.vStr "Ann") :=
  c3_convert_roundtrip
    [("id", Value.vInt 1), ("name", Value.vStr "Ann"),
     ("ok", Value.vBool true), ("note", Value.vNull)] "id" 9
    (by decide) "name" (Value.vStr "Ann")
    (by decide) (by decide) (by decide) (by decide)

/-- C2 counterexample: the sequential engine's relational→document
conversion `_convert_for_mongo` stores the row's primary-key value in the
document store's native `_id` field itself — overwriting the document's
existing native identifier (`"native"`) — and stores nothing under a
`_pg_id` side-channel field, so the claim as stated fails on this input. -/
theorem c2_counterexample :
    aget (SeqEngine.convertForMongo
      [("k", Value.vInt 1), ("_id", Value.vStr "native")] "k" 7) "_id" =
      some (Value.vInt 1) ∧
    aget (SeqEngine.convertForMongo
      [("k", Value.vInt 1), ("_id", Value.vStr "native")] "k" 7) "_pg_id" =
      none := by decide

/-- C2 amended: the DataSync converter pair
(`_convert_pg_to_mongo`/`_convert_mongo_to_pg`, primary key fixed to `id`)
behaves as the claim states — the key value is stored under the reserved
side-channel field `_pg_id`, the document store's native `_id` field is
never written by the conversion, and the key value round-trips — while the
SyncEngine converter pair (`_convert_for_mongo`/`_convert_for_postgres`)
instead moves the primary-key value into the native `_id` field and
restores it from there, so the key value used for matching still
round-trips, but through the native identifier rather than a side-channel
field. -/
theorem c2_amended :
    (∀ (row : Record) (now : Int) (v : Value),
       (row.map Prod.fst).Nodup → aget row "_pg_id" = none →
       aget row "id" = some v →
       aget (NestedSync.convertPgToMongo row now) "_pg_id" = some v) ∧
    (∀ (row : Record) (now : Int),
       (row.map Prod.fst).Nodup →
       aget (NestedSync.convertPgToMongo row now) "_id" = aget row "_id") ∧
    (∀ (row : Record) (now : Int) (v : Value),
       (row.map Prod.fst).Nodup → aget row "_pg_id" = none →
       aget row "id" = some v →
       (NestedSync.convertMongoToPg (NestedSync.convertPgToMongo row now)).bind
         (fun rec => aget rec "id") = some v) ∧
    (∀ (record : Record) (pkCol : String) (now : Int) (v : Value),
       pkCol ≠ "_id" → pkCol ≠ "_sync_source" → pkCol ≠ "_sync_at" →
       aget record pkCol = some v →
       aget (SeqEngine.convertForPostgres
         (SeqEngine.convertForMongo record pkCol now) pkCol) pkCol =
         some v) := by
  refine ⟨?_, ?_, ?_, ?_⟩
  · intro row now v hnd hpg hv
    rw [NestedSync.convertPgToMongo, aget_aset,
      if_neg (show ("_pg_id" : String) ≠ "_synced_at" by decide)]
    exact NestedSync.pgToMongoFold_pgid row [] v hv hpg hnd
  · intro row now hnd
    rw [NestedSync.convertPgToMongo, aget_aset,
      if_neg (show ("_id" : String) ≠ "_synced_at" by decide)]
    cases h : aget row "_id" with
    | some u =>
      exact NestedSync.pgToMongoFold_aget_of_some row [] "_id" u
        (by decide) hnd h
    | none =>
      rw [NestedSync.pgToMongoFold_aget_of_none row [] "_id" (by decide) h]
      rfl
  · intro row now v hnd hpg hv
    have hid : aget (NestedSync.convertPgToMongo row now) "id" = some v := by
      rw [NestedSync.convertPgToMongo, aget_aset,
        if_neg (show ("id" : String) ≠ "_synced_at" by decide)]
      exact NestedSync.pgToMongoFold_aget_of_some row [] "id" v
        (by decide) hnd hv
    have hpgid : aget (NestedSync.convertPgToMongo row now) "_pg_id" = some v := by
      rw [NestedSync.convertPgToMongo, aget_aset,
        if_neg (show ("_pg_id" : String) ≠ "_synced_at" by decide)]
      exact NestedSync.pgToMongoFold_pgid row [] v hv hpg hnd
    have hndconv :
        ((NestedSync.convertPgToMongo row now).map Prod.fst).Nodup := by
      rw [NestedSync.convertPgToMongo]
      exact nodup_keys_aset _ _ _
        (NestedSync.pgToMongoFold_nodup row [] (by simp))
    have hval : ∀ p ∈ NestedSync.convertPgToMongo row now,
        (p.1 = "id" ∨ p.1 = "_pg_id") → p.2 = v := by
      intro p hp hor
      have hga := aget_of_mem_nodup _ p hndconv hp
      rcases hor with h | h
      · rw [h, hid] at hga
        injection hga with hh
        exact hh.symm
      · rw [h, hpgid] at hga
        injection hga with hh
        exact hh.symm
    have hres : aget (NestedSync.mongoToPgFold
        (NestedSync.convertPgToMongo row now) []) "id" = some v :=
      NestedSync.mongoToPgFold_aget_id _ [] v hval
        (Or.inl ⟨("id", v), mem_of_aget hid, Or.inl rfl⟩)
    rw [NestedSync.convertMongoToPg]
    simp only [isEmpty_false_of_aget hres, Bool.false_eq_true, if_false,
      Option.bind_some]
    exact hres
  · intro record pkCol now v hpk1 hpk2 hpk3 hv
    exact SeqEngine.roundtrip_field record pkCol now pkCol v
      hpk1 hpk2 hpk3 hv

/-- Witness for C2 (amended): on a concrete row the key value 1 stored
under `id` survives the DataSync relational→document→relational
round-trip. -/
theorem c2_witness :
    (NestedSync.convertMongoToPg (NestedSync.convertPgToMongo
      [("id", Value.vInt 1), ("name", Value.vStr "Ann")] 3)).bind
      (fun rec => aget rec "id") = some (Value.vInt 1) :=
  c2_amended.2.2.1 [("id", Value.vInt 1), ("name", Value.vStr "Ann")] 3
    (Value.vInt 1) (by decide) (by decide) (by decide)

end DataSyncSpec

namespace DataSyncSpec.SeqEngine

theorem syncMongoToPostgres_fold (upsertOk : Record → Bool) (pkCol : String) :
    ∀ (docs : List Record) (acc : List Record × SyncResult),
      (docs.foldl (processMongoDoc upsertOk pkCol) acc).2.records_skipped =
        acc.2.records_skipped +
          (docs.filter (fun d =>
            decide (aget d "_sync_source" = some (Value.vStr "postgres")))).length ∧
      (docs.foldl (processMongoDoc upsertOk pkCol) acc).1 =
        acc.1 ++
          ((docs.filter (fun d =>
              decide (¬ aget d "_sync_source" = some (Value.vStr "postgres")))).map
            (fun d => convertForPostgres d pkCol)).filter upsertOk
  | [], acc => by simp
  | d :: rest, acc => by
    have ih := syncMongoToPostgres_fold upsertOk pkCol rest
      (processMongoDoc upsertOk pkCol acc d)
    rw [List.foldl_cons]
    constructor
    · rw [ih.1]
      by_cases hm : aget d "_sync_source" = some (Value.vStr "postgres")
      · simp [processMongoDoc, hm, List.filter_cons]
        omega
      · by_cases hup : upsertOk (convertForPostgres d pkCol)
        · simp [processMongoDoc, hm, hup, List.filter_cons]
        · simp [processMongoDoc, hm, hup, List.filter_cons]
    · rw [ih.2]
      by_cases hm : aget d "_sync_source" = some (Value.vStr "postgres")
      · simp [processMongoDoc, hm, List.filter_cons]
      · by_cases hup : upsertOk (convertForPostgres d pkCol)
        · simp [processMongoDoc, hm, hup, List.filter_cons,
            List.append_assoc]
        · simp [processMongoDoc, hm, hup, List.filter_cons]

end DataSyncSpec.SeqEngine

namespace DataSyncSpec

/-- C7: in the one-way document→relational sync, every document whose
origin marker `_sync_source` equals `'postgres'` — the writing engine's
own identity, stamped by a prior relational→document pass — is counted in
`records_skipped`, and the sequence of records written to the relational
store consists exactly of the converted unmarked documents (those whose
upsert succeeded), so no marked document is ever written back. -/
theorem c7_origin_marker_skipped (upsertOk : Record → Bool) (pkCol : String)
    (docs : List Record) :
    (SeqEngine.syncMongoToPostgres upsertOk pkCol docs).2.records_skipped =
      (docs.filter (fun d =>
        decide (aget d "_sync_source" = some (Value.vStr "postgres")))).length ∧
    (SeqEngine.syncMongoToPostgres upsertOk pkCol docs).1 =
      ((docs.filter (fun d =>
          decide (¬ aget d "_sync_source" = some (Value.vStr "postgres")))).map
        (fun d => SeqEngine.convertForPostgres d pkCol)).filter upsertOk := by
  have h := SeqEngine.syncMongoToPostgres_fold upsertOk pkCol docs ([], {})
  exact ⟨by simpa using h.1, by simpa using h.2⟩

/-- C4 counterexample: in `DataSync.sync` (datasync/datasync/sync.py), a
mapping whose processing raises is NOT merely recorded-and-passed-over:
the handler increments a local error counter and then re-raises, so the
whole cycle aborts at the first failing mapping — here the second mapping
`t2` is never processed and `sync` itself ends exceptionally, refuting the
claim that no single mapping's failure aborts the whole cycle. -/
theorem c4_counterexample :
    NestedSync.sync
      (fun m => if m.postgres_table = "t1" then Except.error "boom"
                else Except.ok 1)
      [⟨"t1", "c1"⟩, ⟨"t2", "c2"⟩] = Except.error "boom" := rfl

/-- C4 amended: in `SyncEngine.sync_once` (sync_engine.py) an unhandled
exception in one mapping's processing is caught at the mapping boundary,
counted as one error in the cycle statistics, and the remaining mappings
are still processed; likewise the sequential engine's `sync_all` processes
every table, `sync_table` recording an escaped exception in that table's
own `errors`.  `DataSync.sync` (datasync/datasync/sync.py) is the
exception: it records the error but re-raises, aborting the cycle at the
failing mapping (see the counterexample). -/
theorem c4_amended :
    (∀ (run : BaselineEngine.TableMapping →
          Except String (BaselineEngine.EngineStats → BaselineEngine.EngineStats))
       (pre post : List BaselineEngine.TableMapping)
       (m : BaselineEngine.TableMapping) (e : String),
       run m = Except.error e →
       BaselineEngine.syncOnce run (pre ++ m :: post) =
         BaselineEngine.syncOnceFrom run post
           { BaselineEngine.syncOnceFrom run pre {} with
             errors := (BaselineEngine.syncOnceFrom run pre {}).errors + 1 }) ∧
    (∀ (run : String → SeqEngine.SyncResult × Option String)
       (tables : List String),
       (SeqEngine.syncAll run tables).map Prod.fst = tables) ∧
    (∀ (run : String → SeqEngine.SyncResult × Option String) (t : String)
       (r : SeqEngine.SyncResult) (e : String),
       run t = (r, some e) →
       SeqEngine.syncTable run t =
         { r with errors := r.errors ++ ["Error syncing " ++ t ++ ": " ++ e] }) := by
  refine ⟨?_, ?_, ?_⟩
  · intro run pre post m e h
    simp [BaselineEngine.syncOnce, BaselineEngine.syncOnceFrom,
      List.foldl_append, h]
  · intro run tables
    simp only [SeqEngine.syncAll, List.map_map]
    have h1 : (Prod.fst ∘ fun t => (t, SeqEngine.syncTable run t)) =
        @id String := rfl
    rw [h1, List.map_id]
  · intro run t r e h
    simp [SeqEngine.syncTable, h]

/-- Witness for C4 (amended): with three mappings of which the middle one
fails, the cycle records one error and still processes the third mapping
(two successful increments). -/
theorem c4_witness :
    BaselineEngine.syncOnce
      (fun m => if m.postgres_table = "bad" then Except.error "boom"
        else Except.ok
          (fun s => { s with pg_to_mongo := s.pg_to_mongo + 1 }))
      [⟨"a", "a", "id"⟩, ⟨"bad", "b", "id"⟩, ⟨"c", "c", "id"⟩] =
      { pg_to_mongo := 2, mongo_to_pg := 0, conflicts := 0, errors := 1 } := by
  have h := c4_amended.1
    (fun m => if m.postgres_table = "bad" then Except.error "boom"
      else Except.ok
        (fun s => { s with pg_to_mongo := s.pg_to_mongo + 1 }))
    [⟨"a", "a", "id"⟩] [⟨"c", "c", "id"⟩] ⟨"bad", "b", "id"⟩ "boom" rfl
  exact h.trans rfl

end DataSyncSpec

namespace DataSyncSpec.Paging

theorem collectPagesAux_flatten {α : Type} (store : List α) (batchSize : Nat)
    (hB : 1 ≤ batchSize) :
    ∀ (fuel offset : Nat), store.length ≤ offset + fuel * batchSize →
      (collectPagesAux store batchSize fuel offset).flatten =
        store.drop offset
  | 0, offset, h => by
    rw [collectPagesAux]
    rw [List.flatten_nil]
    exact (List.drop_eq_nil_iff.mpr (by simpa using h)).symm
  | fuel + 1, offset, h => by
    rw [collectPagesAux]
    by_cases ho : offset < store.length
    · rw [if_pos ho]
      have hbne : ¬ ((Db.fetchBatch store batchSize offset).isEmpty = true) := by
        rw [Db.fetchBatch]
        simp only [List.isEmpty_iff]
        intro hc
        have hlen := congrArg List.length hc
        simp only [List.length_take, List.length_drop, List.length_nil] at hlen
        omega
      rw [if_neg hbne, List.flatten_cons]
      have h2 : store.length ≤ (offset + batchSize) + fuel * batchSize := by
        rw [Nat.succ_mul] at h
        omega
      rw [collectPagesAux_flatten store batchSize hB fuel (offset + batchSize) h2]
      rw [Db.fetchBatch]
      have h3 : store.drop (offset + batchSize) =
          (store.drop offset).drop batchSize := by
        rw [List.drop_drop]
      rw [h3]
      exact List.take_append_drop batchSize (store.drop offset)
    · rw [if_neg ho, List.flatten_nil]
      exact (List.drop_eq_nil_iff.mpr (by omega)).symm

theorem collectPages_flatten {α : Type} (store : List α) (batchSize : Nat)
    (hB : 1 ≤ batchSize) :
    (collectPages store batchSize 0).flatten = store := by
  rw [collectPages]
  rw [collectPagesAux_flatten store batchSize hB store.length 0
    (by simpa using Nat.le_mul_of_pos_right store.length hB)]
  rfl

theorem collectPagesAux_map_length {α : Type} (store : List α)
    (batchSize : Nat) (hB : 1 ≤ batchSize) :
    ∀ (fuel offset : Nat),
      (collectPagesAux store batchSize fuel offset).map List.length =
        chunkLengthsAux batchSize fuel (store.length - offset)
  | 0, _ => rfl
  | fuel + 1, offset => by
    rw [collectPagesAux, chunkLengthsAux]
    by_cases ho : offset < store.length
    · have hbne : ¬ ((Db.fetchBatch store batchSize offset).isEmpty = true) := by
        rw [Db.fetchBatch]
        simp only [List.isEmpty_iff]
        intro hc
        have hlen := congrArg List.length hc
        simp only [List.length_take, List.length_drop, List.length_nil] at hlen
        omega
      rw [if_pos ho, if_neg hbne, List.map_cons,
        collectPagesAux_map_length store batchSize hB fuel (offset + batchSize)]
      rw [if_pos (show 0 < store.length - offset by omega)]
      have h1 : (Db.fetchBatch store batchSize offset).length =
          min batchSize (store.length - offset) := by
        rw [Db.fetchBatch, List.length_take, List.length_drop]
      rw [h1]
      have h2 : store.length - (offset + batchSize) =
          store.length - offset - batchSize := by omega
      rw [h2]
    · rw [if_neg ho, if_neg (show ¬ 0 < store.length - offset by omega)]
      rfl

end DataSyncSpec.Paging

namespace DataSyncSpec.BaselineSync

theorem rowLoop_stats (strategy pk : String)
    (mongoStore : List (Value × Record)) :
    ∀ (rows : List Record) (acc : List Record × Stats),
      (rowLoop strategy pk mongoStore rows acc).1.2.rows_processed =
        acc.2.rows_processed ∧
      (rowLoop strategy pk mongoStore rows acc).1.2.errors = acc.2.errors ∧
      ((rowLoop strategy pk mongoStore rows acc).2 = none →
        (rowLoop strategy pk mongoStore rows acc).1.2.rows_inserted +
          (rowLoop strategy pk mongoStore rows acc).1.2.rows_updated +
          (rowLoop strategy pk mongoStore rows acc).1.2.rows_skipped =
        acc.2.rows_inserted + acc.2.rows_updated + acc.2.rows_skipped +
          rows.length) ∧
      ((∀ row ∈ rows, (aget (convertPgToMongo row) pk).isSome = true) →
        (rowLoop strategy pk mongoStore rows acc).2 = none)
  | [], acc => by
    refine ⟨rfl, rfl, fun _ => by simp [rowLoop], fun _ => rfl⟩
  | row :: rest, acc => by
    cases hpk : aget (convertPgToMongo row) pk with
    | none =>
      refine ⟨by simp only [rowLoop, hpk], by simp only [rowLoop, hpk],
        ?_, ?_⟩
      · simp only [rowLoop, hpk]
        intro hc
        cases hc
      · intro hall
        have hx := hall row (List.mem_cons_self _ _)
        rw [hpk] at hx
        simp at hx
    | some keyVal =>
      have hall2 : (∀ r ∈ row :: rest,
            (aget (convertPgToMongo r) pk).isSome = true) →
          ∀ r ∈ rest, (aget (convertPgToMongo r) pk).isSome = true :=
        fun hall r hr => hall r (List.mem_cons_of_mem _ hr)
      cases hex : getDocument mongoStore keyVal with
      | none =>
        cases hres : resolve strategy (convertPgToMongo row) none "postgres" with
        | some resolved =>
          have ih := rowLoop_stats strategy pk mongoStore rest
            (acc.1 ++ [resolved],
             { acc.2 with rows_inserted := acc.2.rows_inserted + 1 })
          simp only [rowLoop, hpk, hex, hres]
          refine ⟨ih.1, ih.2.1, ?_, fun hall => ih.2.2.2 (hall2 hall)⟩
          intro hn
          have h2 := ih.2.2.1 hn
          simp only [List.length_cons]
          simp at h2 ⊢
          omega
        | none =>
          have ih := rowLoop_stats strategy pk mongoStore rest
            (acc.1, { acc.2 with rows_skipped := acc.2.rows_skipped + 1 })
          simp only [rowLoop, hpk, hex, hres]
          refine ⟨ih.1, ih.2.1, ?_, fun hall => ih.2.2.2 (hall2 hall)⟩
          intro hn
          have h2 := ih.2.2.1 hn
          simp only [List.length_cons]
          simp at h2 ⊢
          omega
      | some existingDoc =>
        cases hres : resolve strategy (convertPgToMongo row)
            (some existingDoc) "postgres" with
        | some resolved =>
          have ih := rowLoop_stats strategy pk mongoStore rest
            (acc.1 ++ [resolved],
             { acc.2 with rows_updated := acc.2.rows_updated + 1 })
          simp only [rowLoop, hpk, hex, hres]
          refine ⟨ih.1, ih.2.1, ?_, fun hall => ih.2.2.2 (hall2 hall)⟩
          intro hn
          have h2 := ih.2.2.1 hn
          simp only [List.length_cons]
          simp at h2 ⊢
          omega
        | none =>
          have ih := rowLoop_stats strategy pk mongoStore rest
            (acc.1, { acc.2 with rows_skipped := acc.2.rows_skipped + 1 })
          simp only [rowLoop, hpk, hex, hres]
          refine ⟨ih.1, ih.2.1, ?_, fun hall => ih.2.2.2 (hall2 hall)⟩
          intro hn
          have h2 := ih.2.2.1 hn
          simp only [List.length_cons]
          simp at h2 ⊢
          omega

theorem batchLoop_stats (strategy pk : String) :
    ∀ (pages : List (List Record)) (mongoStore : List (Value × Record))
      (stats : Stats),
      ((batchLoop strategy pk pages mongoStore stats).1.errors = stats.errors →
        (batchLoop strategy pk pages mongoStore stats).1.rows_processed +
          stats.rows_inserted + stats.rows_updated + stats.rows_skipped =
        stats.rows_processed +
          (batchLoop strategy pk pages mongoStore stats).1.rows_inserted +
          (batchLoop strategy pk pages mongoStore stats).1.rows_updated +
          (batchLoop strategy pk pages mongoStore stats).1.rows_skipped) ∧
      ((batchLoop strategy pk pages mongoStore stats).1.errors = stats.errors →
        (batchLoop strategy pk pages mongoStore stats).1.rows_processed =
          stats.rows_processed + (pages.map List.length).sum) ∧
      ((∀ page ∈ pages, ∀ row ∈ page,
          (aget (convertPgToMongo row) pk).isSome = true) →
        (batchLoop strategy pk pages mongoStore stats).1.errors = stats.errors)
  | [], _, stats => by
    refine ⟨fun _ => rfl, fun _ => by simp [batchLoop], fun _ => rfl⟩
  | batch :: rest, mongoStore, stats => by
    rcases hrl : rowLoop strategy pk mongoStore batch ([], stats) with
      ⟨⟨writes, stats2⟩, err⟩
    have hrs := rowLoop_stats strategy pk mongoStore batch ([], stats)
    rw [hrl] at hrs
    have hp2 : stats2.rows_processed = stats.rows_processed := hrs.1
    have he2 : stats2.errors = stats.errors := hrs.2.1
    have hsum2 : err = none →
        stats2.rows_inserted + stats2.rows_updated + stats2.rows_skipped =
          stats.rows_inserted + stats.rows_updated + stats.rows_skipped +
            batch.length := hrs.2.2.1
    have hok2 : (∀ row ∈ batch,
        (aget (convertPgToMongo row) pk).isSome = true) → err = none :=
      hrs.2.2.2
    cases err with
    | none =>
      have hsum3 := hsum2 rfl
      have ih := batchLoop_stats strategy pk rest
        (upsertBatch mongoStore writes pk)
        { stats2 with rows_processed := stats2.rows_processed + batch.length }
      simp only [batchLoop, hrl]
      refine ⟨?_, ?_, ?_⟩
      · intro herr
        have h1 := ih.1 (herr.trans he2.symm)
        simp at h1
        omega
      · intro herr
        have h1 := ih.2.1 (herr.trans he2.symm)
        simp at h1
        simp only [List.map_cons, List.sum_cons]
        omega
      · intro hall
        have h1 := ih.2.2 (fun page hpg row hr =>
          hall page (List.mem_cons_of_mem _ hpg) row hr)
        exact h1.trans he2
    | some e =>
      simp only [batchLoop, hrl]
      refine ⟨?_, ?_, ?_⟩
      · intro herr
        exfalso
        have hx : stats2.errors ++ [e] = stats2.errors := herr.trans he2.symm
        have hlen := congrArg List.length hx
        simp at hlen
      · intro herr
        exfalso
        have hx : stats2.errors ++ [e] = stats2.errors := herr.trans he2.symm
        have hlen := congrArg List.length hx
        simp at hlen
      · intro hall
        have hx := hok2 (fun row hr => hall batch (List.mem_cons_self _ _) row hr)
        cases hx

end DataSyncSpec.BaselineSync

namespace DataSyncSpec

/-- C10: whenever `sync_postgres_to_mongo` returns with an empty error
list, its statistics satisfy
`rows_processed = rows_inserted + rows_updated + rows_skipped`: every
fetched row is counted in exactly one of the three outcome counters. -/
theorem c10_stats_partition (strategy pk : String) (batchSize : Nat)
    (pgStore : List Record) (mongoStore : List (Value × Record))
    (herr : (BaselineSync.syncPostgresToMongo strategy pk batchSize pgStore
      mongoStore).1.errors = []) :
    (BaselineSync.syncPostgresToMongo strategy pk batchSize pgStore
      mongoStore).1.rows_processed =
      (BaselineSync.syncPostgresToMongo strategy pk batchSize pgStore
        mongoStore).1.rows_inserted +
      (BaselineSync.syncPostgresToMongo strategy pk batchSize pgStore
        mongoStore).1.rows_updated +
      (BaselineSync.syncPostgresToMongo strategy pk batchSize pgStore
        mongoStore).1.rows_skipped := by
  simp only [BaselineSync.syncPostgresToMongo] at herr ⊢
  have h2 := (BaselineSync.batchLoop_stats strategy pk
    (Paging.collectPages pgStore batchSize 0) mongoStore {}).1 herr
  simp at h2
  omega

/-- Witness for C10: a two-row table synced with batch size 1 reports
`rows_processed = 2 = rows_inserted + rows_updated + rows_skipped`. -/
theorem c10_witness :
    (BaselineSync.syncPostgresToMongo "latest_wins" "id" 1
      [[("id", Value.vInt 1)], [("id", Value.vInt 2)]] []).1.rows_processed =
      (BaselineSync.syncPostgresToMongo "latest_wins" "id" 1
        [[("id", Value.vInt 1)], [("id", Value.vInt 2)]] []).1.rows_inserted +
      (BaselineSync.syncPostgresToMongo "latest_wins" "id" 1
        [[("id", Value.vInt 1)], [("id", Value.vInt 2)]] []).1.rows_updated +
      (BaselineSync.syncPostgresToMongo "latest_wins" "id" 1
        [[("id", Value.vInt 1)], [("id", Value.vInt 2)]] []).1.rows_skipped :=
  c10_stats_partition "latest_wins" "id" 1
    [[("id", Value.vInt 1)], [("id", Value.vInt 2)]] [] (by decide)

/-- C8: paginated extraction with page size ≥ 1 over an N-record store
fetches pages that concatenate to exactly the store (no record repeated or
skipped) with lengths summing to N; `fetch_batch` returns the empty
sequence whenever the offset reaches the record count; and for N = 2500
with batch size 1000 exactly 3 pages of sizes 1000, 1000, 500 are fetched
and `rows_processed = 2500`. -/
theorem c8_pagination :
    (∀ (store : List Record) (batchSize : Nat), 1 ≤ batchSize →
       (Paging.collectPages store batchSize 0).flatten = store ∧
       ((Paging.collectPages store batchSize 0).map List.length).sum =
         store.length) ∧
    (∀ (store : List Record) (batchSize offset : Nat),
       store.length ≤ offset → Db.fetchBatch store batchSize offset = []) ∧
    ((Paging.collectPages (List.replicate 2500 [("id", Value.vInt 1)])
        1000 0).map List.length = [1000, 1000, 500]) ∧
    ((BaselineSync.syncPostgresToMongo "latest_wins" "id" 1000
        (List.replicate 2500 [("id", Value.vInt 1)]) []).1.rows_processed =
      2500) := by
  have hflat : ∀ (store : List Record) (B : Nat), 1 ≤ B →
      (Paging.collectPages store B 0).flatten = store :=
    fun store B hB => Paging.collectPages_flatten store B hB
  refine ⟨fun store B hB => ⟨hflat store B hB, ?_⟩, ?_, ?_, ?_⟩
  · rw [← List.length_flatten, hflat store B hB]
  · intro store B off h
    rw [Db.fetchBatch, List.drop_eq_nil_iff.mpr h, List.take_nil]
  · simp only [Paging.collectPages]
    rw [Paging.collectPagesAux_map_length _ 1000 (by omega),
      List.length_replicate]
    decide
  · have hall : ∀ page ∈ Paging.collectPages
        (List.replicate (2500 : Nat) [("id", Value.vInt 1)]) 1000 0,
        ∀ row ∈ page,
          (aget (BaselineSync.convertPgToMongo row) "id").isSome = true := by
      intro page hp row hr
      have hmem : row ∈ (Paging.collectPages
          (List.replicate 2500 [("id", Value.vInt 1)]) 1000 0).flatten :=
        List.mem_flatten.mpr ⟨page, hp, hr⟩
      rw [hflat _ 1000 (by omega)] at hmem
      rw [List.eq_of_mem_replicate hmem]
      decide
    have hb := BaselineSync.batchLoop_stats "latest_wins" "id"
      (Paging.collectPages (List.replicate 2500 [("id", Value.vInt 1)]) 1000 0)
      [] {}
    have herr := hb.2.2 hall
    have hproc := hb.2.1 herr
    have hsum : ((Paging.collectPages
        (List.replicate 2500 [("id", Value.vInt 1)]) 1000 0).map
          List.length).sum = 2500 := by
      rw [← List.length_flatten, hflat _ 1000 (by omega),
        List.length_replicate]
    simp only [BaselineSync.syncPostgresToMongo]
    rw [hproc, hsum]

/-- Witness for C8: fetching past the end of a one-record store yields the
empty page. -/
theorem c8_witness :
    Db.fetchBatch [([("id", Value.vInt 1)] : Record)] 3 5 = [] :=
  c8_pagination.2.1 [[("id", Value.vInt 1)]] 3 5 (by decide)

end DataSyncSpec
